import Mathlib

/-!
# PhoneBookSearch: a verification development

A shallow embedding of `src/PhoneBookSearch.cpp` (a CUDA phone-book search) and
theorems about it.

Conventions of the embedding.

* A `char` is its code, a natural number. A C string or `char` buffer is a
  `List Nat`; reading the buffer at an index goes through `rd`, which yields the
  terminator `0` at the end of the list, so the end of the list plays the role
  of the terminating NUL and an embedded `0` terminates the string early, as in C.
* `int` values are integers; conversions to `int` and `int` additions that can
  leave the 32-bit range go through `wrapInt32`. `size_t` values are naturals
  reduced modulo `2^64`.
* Code that can fail returns `Except Fault _`. Loops whose trip count is not
  syntactically bounded take a fuel argument and report `Fault.outOfFuel` when
  it runs out; the theorems show that this never happens.
-/

namespace PhoneBookSearch

/-- Ways in which the embedded program can leave its defined behaviour. -/
inductive Fault where
  /-- A loop of the model ran out of fuel (never happens, see `contains_returns`). -/
  | outOfFuel
  /-- An array was indexed outside its bounds. -/
  | outOfBounds
  /-- `std::string::substr` was called with a start position past the end. -/
  | outOfRange
  /-- `strcpy` wrote past the end of its destination array. -/
  | bufferOverflow
  deriving DecidableEq, Repr

deriving instance DecidableEq for Except

/-- `MAX_NAME`, the capacity of `Contact::name` in bytes. -/
def MAX_NAME : Nat := 50

/-- `MAX_NUM`, the capacity of `Contact::number` in bytes. -/
def MAX_NUM : Nat := 50

/-- `struct Contact { char name[MAX_NAME]; char number[MAX_NUM]; }`: each field
holds the characters of its buffer (read through `rd` and `cstr`). -/
structure Contact where
  name : List Nat
  number : List Nat
  deriving DecidableEq, Repr

/-- Read of `s[k]` in a character buffer: past the stored characters sits the
terminating NUL. -/
def rd (s : List Nat) (k : Nat) : Nat := s.getD k 0

/-- The C string held in a buffer: its characters up to the first NUL. -/
def cstr (s : List Nat) : List Nat := s.takeWhile (fun c => c ≠ 0)

/-- `lower`: `if (c >= 'A' && c <= 'Z') return c + 32; return c;`. -/
def lower (c : Nat) : Nat :=
  if 65 ≤ c ∧ c ≤ 90 then c + 32 else c

/-- The inner `while` loop of `contains`, started at `j`:
`while (text[i+j] != 0 && pattern[j] != 0 && lower(text[i+j]) == lower(pattern[j])) j++;`
The result is the final value of `j`. -/
def containsWhile (text pattern : List Nat) (i : Nat) : Nat → Nat → Except Fault Nat
  | 0, _ => .error .outOfFuel
  | fuel + 1, j =>
    if rd text (i + j) ≠ 0 ∧ rd pattern j ≠ 0 ∧
        lower (rd text (i + j)) = lower (rd pattern j) then
      containsWhile text pattern i fuel (j + 1)
    else
      .ok j

/-- The outer `for (int i = 0; text[i] != 0; i++)` loop of `contains`, started
at `i`: run the inner loop from `j = 0`, return `true` when `j == plen`, and
return `false` when the loop ends. -/
def containsFor (text pattern : List Nat) (plen : Int) : Nat → Nat → Except Fault Bool
  | 0, _ => .error .outOfFuel
  | fuel + 1, i =>
    if rd text i ≠ 0 then
      match containsWhile text pattern i (pattern.length + 1) 0 with
      | .error e => .error e
      | .ok j =>
        if (j : Int) = plen then .ok true
        else containsFor text pattern plen fuel (i + 1)
    else
      .ok false

/-- `contains(text, pattern, plen)`: the case-insensitive substring match of the
source. Each loop gets one unit of fuel per character of the buffer it walks,
plus one for the test that ends it. The counters `i` and `j` of the source are
`int`s; they never exceed the length of the text, so they are naturals here. -/
def contains (text pattern : List Nat) (plen : Int) : Except Fault Bool :=
  containsFor text pattern plen (text.length + 1) 0

/-! ## The kernel and its launch -/

/-- Conversion of an integer to a 32-bit `int` (two's complement wrap-around). -/
def wrapInt32 (x : Int) : Int :=
  (x + 2147483648) % 4294967296 - 2147483648

/-- `int blockSize = 256;`. -/
def blockSize : Int := 256

/-- `int gridSize = (n + blockSize - 1) / blockSize;` in `int` arithmetic. -/
def gridSize (n : Int) : Int :=
  Int.tdiv (wrapInt32 (wrapInt32 (n + blockSize) - 1)) blockSize

/-- `int idx = blockIdx.x * blockDim.x + threadIdx.x;`: the product and sum are
computed in `unsigned int`, the result is converted to `int`. -/
def threadIndex (blockIdx blockDim threadIdx : Nat) : Int :=
  wrapInt32 (((blockIdx * blockDim + threadIdx) % 4294967296 : Nat) : Int)

/-- The verdict buffer `results` as the kernel sees it: device memory, one `int`
per slot. -/
abbrev ResultBuffer := Nat → Int

/-- Store `results[idx] = v`. -/
def writeResult (results : ResultBuffer) (idx : Nat) (v : Int) : ResultBuffer :=
  fun k => if k = idx then v else results k

/-- Body of `searchKernel` as run by the thread `(blockIdx, threadIdx)` of a
launch with block dimension `blockDim`; the result is the verdict buffer after
the thread has run. -/
def searchKernel (phonebook : List Contact) (n : Int) (search_name : List Nat)
    (name_len : Int) (results : ResultBuffer) (blockIdx blockDim threadIdx : Nat) :
    Except Fault ResultBuffer :=
  let idx := threadIndex blockIdx blockDim threadIdx
  if idx < n then
    if 0 ≤ idx then
      match phonebook[idx.toNat]? with
      | none => .error .outOfBounds
      | some c =>
        match contains c.name search_name name_len with
        | .error e => .error e
        | .ok b =>
          if b then .ok (writeResult results idx.toNat 1)
          else .ok (writeResult results idx.toNat 0)
    else .error .outOfBounds
  else .ok results

/-- The threads of a launch `<<<gridDim, blockDim>>>`, block by block. -/
def launchThreads (gridDim blockDim : Nat) : List (Nat × Nat) :=
  (List.range gridDim).flatMap (fun b => (List.range blockDim).map (fun t => (b, t)))

/-- Run the given threads one after the other on the verdict buffer. -/
def runThreads (kernel : ResultBuffer → Nat → Nat → Except Fault ResultBuffer) :
    List (Nat × Nat) → ResultBuffer → Except Fault ResultBuffer
  | [], results => .ok results
  | (b, t) :: rest, results =>
    match kernel results b t with
    | .error e => .error e
    | .ok results1 => runThreads kernel rest results1

/-- The launch and the copy back of `main` (lines 147-167), for the record count
`n` and the query length `name_len`:
`searchKernel<<<gridSize, blockSize>>>(d_phonebook, n, d_search, name_len, d_results)`
from the device buffer contents `d_results`, then the copy of `n` verdicts
into `results`. -/
def scanLaunch (phonebook : List Contact) (n : Int) (search_name : List Nat) (name_len : Int)
    (d_results : ResultBuffer) : Except Fault (List Int) :=
  match runThreads
      (fun results b t =>
        searchKernel phonebook n search_name name_len results b blockSize.toNat t)
      (launchThreads (gridSize n).toNat blockSize.toNat) d_results with
  | .error e => .error e
  | .ok results => .ok ((List.range n.toNat).map results)

/-- The scan of `main` (lines 119-167): `int n = phonebook.size()`, then the
launch with `n` and `search_name.size()` (converted to `int`) and the copy back. -/
def scan (phonebook : List Contact) (search_name : List Nat) (d_results : ResultBuffer) :
    Except Fault (List Int) :=
  scanLaunch phonebook (wrapInt32 (phonebook.length : Int)) search_name
    (wrapInt32 (search_name.length : Int)) d_results

/-- The verdict `searchKernel` stores for the record at index `k`: `1` when
`contains` returns `true` on its name, else `0`. -/
def verdictAt (phonebook : List Contact) (search_name : List Nat) (name_len : Int)
    (k : Nat) : Int :=
  match phonebook[k]? with
  | none => 0
  | some c =>
    match contains c.name search_name name_len with
    | .ok true => 1
    | _ => 0

/-- The indices computed by the threads of a list. -/
def indicesOf (threads : List (Nat × Nat)) : List Nat :=
  threads.map (fun p => p.1 * 256 + p.2)

/-- The verdict `searchKernel` stores for a record: `1` when `contains` returns
`true` on its name, else `0`. -/
def recordVerdict (search_name : List Nat) (name_len : Int) (c : Contact) : Int :=
  match contains c.name search_name name_len with
  | .ok true => 1
  | _ => 0

/-- The launch of `scanLaunch` with its threads run one after the other in the
given order, and the copy back of `n` verdicts. -/
def scanOrdered (phonebook : List Contact) (n : Int) (search_name : List Nat) (name_len : Int)
    (order : List (Nat × Nat)) (d_results : ResultBuffer) : Except Fault (List Int) :=
  match runThreads
      (fun results b t =>
        searchKernel phonebook n search_name name_len results b blockSize.toNat t)
      order d_results with
  | .error e => .error e
  | .ok results => .ok ((List.range n.toNat).map results)

/-! ## The report -/

/-- The characters of a string literal, as codes. -/
def chars (s : String) : List Nat := s.toList.map Char.toNat

/-- The line `out << "FOUND: " << name << " -> " << number << "\n"` writes for a
record, without its newline. -/
def foundLine (c : Contact) : List Nat :=
  chars "FOUND: " ++ cstr c.name ++ chars " -> " ++ cstr c.number

/-- The line `out << "No matches found\n"` writes, without its newline. -/
def noMatchLine : List Nat := chars "No matches found"

/-- The report loop `for (int i = 0; i < n; i++)` of `main` with `k` iterations
left, at index `i`, having written the lines `out` and counted `found` matches.
Since `found <= i < n`, the increments stay in `int` range. -/
def reportLoop (phonebook : List Contact) (results : List Int) :
    Nat → Nat → List (List Nat) → Int → Except Fault (List (List Nat) × Int)
  | 0, _, out, found => .ok (out, found)
  | k + 1, i, out, found =>
    match results[i]? with
    | none => .error .outOfBounds
    | some r =>
      if r ≠ 0 then
        match phonebook[i]? with
        | none => .error .outOfBounds
        | some c => reportLoop phonebook results k (i + 1) (out ++ [foundLine c]) (found + 1)
      else reportLoop phonebook results k (i + 1) out found

/-- The report of `main` (lines 172-192): the lines written to `result.txt`, each
ended by a newline in the file, and the match count `found` printed after
`Matches: `. -/
def report (phonebook : List Contact) (results : List Int) (n : Int) :
    Except Fault (List (List Nat) × Int) :=
  match reportLoop phonebook results n.toNat 0 [] 0 with
  | .error e => .error e
  | .ok (out, found) =>
    if found = 0 then .ok (out ++ [noMatchLine], found) else .ok (out, found)

/-- The records of the store whose verdict is non-zero, in store order. -/
def matchedRecords (phonebook : List Contact) (results : List Int) : List Contact :=
  ((phonebook.zip results).filter (fun p => p.2 ≠ 0)).map Prod.fst

/-! ## The loader -/

/-- `std::string::npos`, the largest `size_t`. -/
def npos : Nat := 18446744073709551615

/-- Addition of `size_t` values. -/
def sizeAdd (a b : Nat) : Nat := (a + b) % 18446744073709551616

/-- Subtraction of `size_t` values. -/
def sizeSub (a b : Nat) : Nat := (a + 18446744073709551616 - b) % 18446744073709551616

/-- Search of the character `c` in `rest`, whose first character has index `k`. -/
def findFrom : List Nat → Nat → Nat → Nat
  | [], _, _ => npos
  | x :: xs, c, k => if x = c then k else findFrom xs c (k + 1)

/-- `s.find(c, pos)`: index of the first `c` at or after `pos`, else `npos`. -/
def find (s : List Nat) (c : Nat) (pos : Nat) : Nat :=
  findFrom (s.drop pos) c pos

/-- `s.substr(pos, len)`: throws `out_of_range` when `pos > s.size()`. -/
def substr (s : List Nat) (pos len : Nat) : Except Fault (List Nat) :=
  if pos > s.length then .error .outOfRange else .ok ((s.drop pos).take len)

/-- `strcpy(dst, src.c_str())` into an array of `cap` bytes: copies the
characters up to the first NUL and the NUL itself; the result is the string now
held in `dst`. Writing past the array is undefined behaviour. -/
def strcpy (cap : Nat) (src : List Nat) : Except Fault (List Nat) :=
  if (cstr src).length + 1 ≤ cap then .ok (cstr src) else .error .bufferOverflow

/-- The double-quote character. -/
def quote : Nat := 34

/-- Body of the parsing loop of `main` (lines 97-114) for one line: `none` when
the line is skipped by `continue`, else the record that is pushed. -/
def parseLine (line : List Nat) : Except Fault (Option Contact) :=
  let q1 := find line quote 0
  let q2 := find line quote (sizeAdd q1 1)
  let q3 := find line quote (sizeAdd q2 1)
  let q4 := find line quote (sizeAdd q3 1)
  if q1 = npos ∨ q2 = npos ∨ q3 = npos ∨ q4 = npos then .ok none
  else
    match substr line (sizeAdd q1 1) (sizeSub (sizeSub q2 q1) 1) with
    | .error e => .error e
    | .ok name =>
      match substr line (sizeAdd q3 1) (sizeSub (sizeSub q4 q3) 1) with
      | .error e => .error e
      | .ok number =>
        match strcpy MAX_NAME name with
        | .error e => .error e
        | .ok cname =>
          match strcpy MAX_NUM number with
          | .error e => .error e
          | .ok cnumber => .ok (some { name := cname, number := cnumber })

/-- The loop `while (getline(file, line))` of `main` over the remaining lines of
the file, with the records pushed so far. -/
def loadLines : List (List Nat) → List Contact → Except Fault (List Contact)
  | [], phonebook => .ok phonebook
  | line :: rest, phonebook =>
    match parseLine line with
    | .error e => .error e
    | .ok none => loadLines rest phonebook
    | .ok (some c) => loadLines rest (phonebook ++ [c])

/-- The loader of `main` (lines 89-115): the phone book read from the lines of
`phonebook.txt`. -/
def loadPhonebook (lines : List (List Nat)) : Except Fault (List Contact) :=
  loadLines lines []

/-! ## The program -/

/-- What `main` prints on the console. -/
inductive Message where
  /-- `Usage: ./search_phonebook <search_name>`. -/
  | usage
  /-- `Cannot open phonebook.txt`. -/
  | cannotOpen
  /-- `Total contacts loaded: n`. -/
  | loaded (n : Int)
  /-- `Matches: found`. -/
  | matches (found : Int)
  /-- `Results saved to result.txt`. -/
  | saved
  deriving DecidableEq, Repr

/-- What a run of `main` leaves behind: its exit code, its console output, the
verdict array copied back from the device when the kernel was launched, and the
lines written to `result.txt` when the file was opened for writing. -/
structure Run where
  exitCode : Int
  console : List Message
  verdicts : Option (List Int)
  report : Option (List (List Nat))
  deriving DecidableEq, Repr

/-- Lines 119-202 of `main`, for the loaded phone book, `int n = phonebook.size()`
and the query with its length: print the count, return `0` when `n == 0`, else
scan, write the report, print the match count and return `0`. -/
def searchAndReport (phonebook : List Contact) (n : Int) (search_name : List Nat)
    (name_len : Int) (d_results : ResultBuffer) : Except Fault Run :=
  if n = 0 then
    .ok { exitCode := 0, console := [.loaded n], verdicts := none, report := none }
  else
    match scanLaunch phonebook n search_name name_len d_results with
    | .error e => .error e
    | .ok results =>
      match report phonebook results n with
      | .error e => .error e
      | .ok (lines, found) =>
        .ok { exitCode := 0, console := [.loaded n, .matches found, .saved],
              verdicts := some results, report := some lines }

/-- `main(argc, argv)`: `argv` holds the program name and the arguments, `file`
the lines of `phonebook.txt` or `none` when it cannot be opened, `d_results` the
contents of the device buffer when it is allocated. -/
def main (argv : List (List Nat)) (file : Option (List (List Nat)))
    (d_results : ResultBuffer) : Except Fault Run :=
  if argv.length ≠ 2 then
    .ok { exitCode := 1, console := [.usage], verdicts := none, report := none }
  else
    match file with
    | none => .ok { exitCode := 1, console := [.cannotOpen], verdicts := none, report := none }
    | some lines =>
      match loadPhonebook lines with
      | .error e => .error e
      | .ok phonebook =>
        searchAndReport phonebook (wrapInt32 (phonebook.length : Int)) (argv.getD 1 [])
          (wrapInt32 ((argv.getD 1 []).length : Int)) d_results

/-! ## Vocabulary of the statements -/

/-- The line `"NAME","NUMBER"`: the two fields in double quotes, separated by a
comma. -/
def recordLine (name number : List Nat) : List Nat :=
  quote :: (name ++ quote :: 44 :: quote :: (number ++ [quote]))

/-- The same letter in the other case; any other character is unchanged. -/
def swapCase (c : Nat) : Nat :=
  if 65 ≤ c ∧ c ≤ 90 then c + 32 else if 97 ≤ c ∧ c ≤ 122 then c - 32 else c

/-- The string `t` is `s` with some of its letters replaced by the same letter
in the other case. -/
def CaseVariant (s t : List Nat) : Prop :=
  List.Forall₂ (fun a b => b = a ∨ b = swapCase a) s t

/-- A line of the report is a `FOUND` line when it starts with `FOUND: `. -/
def isFoundLine (l : List Nat) : Bool := l.take 7 == chars "FOUND: "

/-- The list `xs` reordered by the list of indices `p`: its `j`-th element is
the element of `xs` at index `p[j]`. -/
def reorder {α : Type} (p : List Nat) (xs : List α) : List α :=
  p.filterMap (fun i => xs[i]?)

/-! ## Sample data -/

/-- A two-record store. -/
def sampleStore : List Contact :=
  [{ name := chars "Alice Smith", number := chars "12345" },
   { name := chars "bob jones", number := chars "67890" }]

/-- A record with an empty name, as loaded from the line `"","555"`. -/
def namelessContact : Contact := { name := [], number := chars "555" }

/-- A name of fifty characters, one more than a `Contact` can hold. -/
def longName : List Nat := List.replicate 50 97

/-! ## The matcher returns -/

theorem rd_ne_zero_lt {s : List Nat} {k : Nat} (h : rd s k ≠ 0) : k < s.length := by
  by_contra hk
  exact h (by simp [rd, List.getElem?_eq_none (Nat.le_of_not_lt hk)])

/-- The inner loop ends within its fuel; it stops inside the pattern and, when
started inside the text, inside the text. -/
theorem containsWhile_returns (text pattern : List Nat) (i : Nat) :
    ∀ (fuel j : Nat), j ≤ pattern.length → pattern.length + 1 ≤ fuel + j →
      ∃ j1, containsWhile text pattern i fuel j = .ok j1 ∧ j ≤ j1 ∧
        j1 ≤ pattern.length ∧ (i + j ≤ text.length → i + j1 ≤ text.length) := by
  intro fuel
  induction fuel with
  | zero => intro j h1 h2; omega
  | succ fuel ih =>
    intro j h1 h2
    unfold containsWhile
    split
    · rename_i hc
      have ht := rd_ne_zero_lt hc.1
      have hp := rd_ne_zero_lt hc.2.1
      obtain ⟨j1, e, a, b, c⟩ := ih (j + 1) hp (by omega)
      exact ⟨j1, e, by omega, b, fun _ => c (by omega)⟩
    · exact ⟨j, rfl, le_refl _, h1, fun h => h⟩

/-- The outer loop ends within its fuel. -/
theorem containsFor_returns (text pattern : List Nat) (plen : Int) :
    ∀ (fuel i : Nat), i ≤ text.length → text.length + 1 ≤ fuel + i →
      ∃ b, containsFor text pattern plen fuel i = .ok b := by
  intro fuel
  induction fuel with
  | zero => intro i h1 h2; omega
  | succ fuel ih =>
    intro i h1 h2
    unfold containsFor
    split
    · rename_i hc
      have ht := rd_ne_zero_lt hc
      obtain ⟨j1, e, _⟩ :=
        containsWhile_returns text pattern i (pattern.length + 1) 0 (Nat.zero_le _) (by omega)
      rw [e]
      dsimp only
      split
      · exact ⟨true, rfl⟩
      · exact ih (i + 1) ht (by omega)
    · exact ⟨false, rfl⟩

/-- The matcher `contains` returns a verdict on every input: the fuel of the
model never runs out. -/
theorem contains_returns (text pattern : List Nat) (plen : Int) :
    ∃ b, contains text pattern plen = .ok b :=
  containsFor_returns text pattern plen (text.length + 1) 0 (Nat.zero_le _) (by omega)

/-- A pattern length beyond the text length is never reached by the inner loop,
so the outer loop ends with `false`. -/
theorem containsFor_short_text (text pattern : List Nat) (plen : Int)
    (hlen : (text.length : Int) < plen) :
    ∀ (fuel i : Nat), i ≤ text.length → text.length + 1 ≤ fuel + i →
      containsFor text pattern plen fuel i = .ok false := by
  intro fuel
  induction fuel with
  | zero => intro i h1 h2; omega
  | succ fuel ih =>
    intro i h1 h2
    unfold containsFor
    split
    · rename_i hc
      have ht := rd_ne_zero_lt hc
      obtain ⟨j1, e, _, _, hb⟩ :=
        containsWhile_returns text pattern i (pattern.length + 1) 0 (Nat.zero_le _) (by omega)
      rw [e]
      dsimp only
      have hj : i + j1 ≤ text.length := hb (by omega)
      rw [if_neg (by omega)]
      exact ih (i + 1) ht (by omega)
    · rfl

theorem contains_short_text (text pattern : List Nat) (plen : Int)
    (hlen : (text.length : Int) < plen) : contains text pattern plen = .ok false :=
  containsFor_short_text text pattern plen hlen (text.length + 1) 0 (Nat.zero_le _) (by omega)

/-! ## The matcher as a substring test -/

theorem swapCase_fold (a b : Nat) (h : b = a ∨ b = swapCase a) :
    (b = 0 ↔ a = 0) ∧ lower b = lower a := by
  rcases h with h | h
  · subst h; exact ⟨Iff.rfl, rfl⟩
  · subst h
    unfold swapCase lower
    by_cases h1 : 65 ≤ a ∧ a ≤ 90
    · rw [if_pos h1, if_pos h1, if_neg (by omega)]
      exact ⟨by omega, rfl⟩
    · rw [if_neg h1, if_neg h1]
      by_cases h2 : 97 ≤ a ∧ a ≤ 122
      · rw [if_pos h2, if_pos (by omega)]
        exact ⟨by omega, by omega⟩
      · rw [if_neg h2, if_neg h1]
        exact ⟨Iff.rfl, rfl⟩

/-- Reads of a case variant: NUL at the same places, and equal after folding. -/
theorem caseVariant_rd {s t : List Nat} (h : CaseVariant s t) :
    ∀ k, (rd t k = 0 ↔ rd s k = 0) ∧ lower (rd t k) = lower (rd s k) := by
  unfold CaseVariant at h
  induction h with
  | nil => intro k; simp [rd]
  | cons hab _ ih =>
    intro k
    cases k with
    | zero => simpa [rd] using swapCase_fold _ _ hab
    | succ k => simpa [rd] using ih k

theorem caseVariant_length {s t : List Nat} (h : CaseVariant s t) : t.length = s.length :=
  (List.Forall₂.length_eq h).symm

/-- The inner loop sees a buffer only through its NUL tests and its folded
characters. -/
theorem containsWhile_congr (t t2 p p2 : List Nat) (i : Nat)
    (ht : ∀ k, (rd t2 k = 0 ↔ rd t k = 0) ∧ lower (rd t2 k) = lower (rd t k))
    (hp : ∀ k, (rd p2 k = 0 ↔ rd p k = 0) ∧ lower (rd p2 k) = lower (rd p k)) :
    ∀ (fuel j : Nat), containsWhile t2 p2 i fuel j = containsWhile t p i fuel j := by
  intro fuel
  induction fuel with
  | zero => intro j; rfl
  | succ fuel ih =>
    intro j
    unfold containsWhile
    rw [ih (j + 1)]
    have e : (rd t2 (i + j) ≠ 0 ∧ rd p2 j ≠ 0 ∧ lower (rd t2 (i + j)) = lower (rd p2 j)) ↔
        (rd t (i + j) ≠ 0 ∧ rd p j ≠ 0 ∧ lower (rd t (i + j)) = lower (rd p j)) := by
      simp only [ne_eq, (ht (i + j)).2, (hp j).2, (ht (i + j)).1, (hp j).1]
    by_cases hc : rd t (i + j) ≠ 0 ∧ rd p j ≠ 0 ∧ lower (rd t (i + j)) = lower (rd p j)
    · rw [if_pos hc, if_pos (e.mpr hc)]
    · rw [if_neg hc, if_neg (fun h => hc (e.mp h))]

theorem containsFor_congr (t t2 p p2 : List Nat) (plen : Int)
    (ht : ∀ k, (rd t2 k = 0 ↔ rd t k = 0) ∧ lower (rd t2 k) = lower (rd t k))
    (hp : ∀ k, (rd p2 k = 0 ↔ rd p k = 0) ∧ lower (rd p2 k) = lower (rd p k))
    (hlen : p2.length = p.length) :
    ∀ (fuel i : Nat), containsFor t2 p2 plen fuel i = containsFor t p plen fuel i := by
  intro fuel
  induction fuel with
  | zero => intro i; rfl
  | succ fuel ih =>
    intro i
    unfold containsFor
    rw [ih (i + 1), hlen, containsWhile_congr t t2 p p2 i ht hp]
    by_cases hc : rd t i ≠ 0
    · rw [if_pos hc, if_pos (fun h => hc ((ht i).1.mp h))]
    · rw [if_neg hc, if_neg (fun h => hc (fun h2 => h ((ht i).1.mpr h2)))]

theorem contains_congr (t t2 p p2 : List Nat) (plen : Int)
    (ht : CaseVariant t t2) (hp : CaseVariant p p2) :
    contains t2 p2 plen = contains t p plen := by
  unfold contains
  rw [caseVariant_length ht]
  exact containsFor_congr t t2 p p2 plen (caseVariant_rd ht) (caseVariant_rd hp)
    (caseVariant_length hp) _ _

/-! ## The kernel and the scan -/

theorem wrapInt32_of_lt (x : Int) (h0 : 0 ≤ x) (h1 : x < 2147483648) : wrapInt32 x = x := by
  unfold wrapInt32; omega

theorem threadIndex_eq (b t : Nat) (h : b * 256 + t < 2147483648) :
    threadIndex b 256 t = ((b * 256 + t : Nat) : Int) := by
  unfold threadIndex
  rw [Nat.mod_eq_of_lt (by omega)]
  exact wrapInt32_of_lt _ (by omega) (by omega)

theorem gridSize_eq (n : Nat) (h : n + 255 < 2147483648) :
    (gridSize (n : Int)).toNat = (n + 255) / 256 := by
  unfold gridSize blockSize
  have e : wrapInt32 (wrapInt32 ((n : Int) + 256) - 1) = ((n + 255 : Nat) : Int) := by
    unfold wrapInt32; omega
  rw [e, Int.tdiv_eq_ediv (by omega) (by omega)]
  omega

/-- One thread of the kernel: it stores the verdict of its record in its own
slot when its index is below `n`, and does nothing otherwise. -/
theorem searchKernel_step (phonebook : List Contact) (search_name : List Nat)
    (name_len : Int) (results : ResultBuffer) (b t : Nat)
    (h : b * 256 + t < 2147483648) :
    searchKernel phonebook (phonebook.length : Int) search_name name_len results b 256 t =
      .ok (fun k => if k = b * 256 + t ∧ k < phonebook.length
        then verdictAt phonebook search_name name_len k else results k) := by
  unfold searchKernel
  rw [threadIndex_eq b t h]
  dsimp only
  by_cases hlt : b * 256 + t < phonebook.length
  · rw [if_pos (by omega), if_pos (by omega), Int.toNat_ofNat,
      List.getElem?_eq_getElem hlt]
    dsimp only
    obtain ⟨v, hv⟩ := contains_returns (phonebook[b * 256 + t]).name search_name name_len
    rw [hv]
    dsimp only
    have hva : verdictAt phonebook search_name name_len (b * 256 + t) = if v then 1 else 0 := by
      unfold verdictAt
      rw [List.getElem?_eq_getElem hlt]
      dsimp only
      rw [hv]
      cases v <;> rfl
    cases v
    · simp only [Bool.false_eq_true, if_false] at hva ⊢
      congr 1
      funext k
      unfold writeResult
      by_cases hk : k = b * 256 + t
      · subst hk; simp [hlt, hva]
      · simp [hk]
    · simp only [if_true] at hva ⊢
      congr 1
      funext k
      unfold writeResult
      by_cases hk : k = b * 256 + t
      · subst hk; simp [hlt, hva]
      · simp [hk]
  · rw [if_neg (by omega)]
    congr 1
    funext k
    by_cases hk : k = b * 256 + t
    · subst hk; simp [hlt]
    · simp [hk]

/-- Running a list of threads, one after the other, when each thread writes the
value `v k` to its own slot `k` if `k < n` and does nothing otherwise: every slot
below `n` whose index some thread of the list computes holds `v k`, and every
other slot is unchanged. -/
theorem runThreads_eq (kernel : ResultBuffer → Nat → Nat → Except Fault ResultBuffer)
    (v : Nat → Int) (n : Nat) :
    ∀ (threads : List (Nat × Nat)) (results : ResultBuffer),
      (∀ p ∈ threads, ∀ r, kernel r p.1 p.2 =
        .ok (fun k => if k = p.1 * 256 + p.2 ∧ k < n then v k else r k)) →
      runThreads kernel threads results =
        .ok (fun k => if k ∈ indicesOf threads ∧ k < n then v k else results k) := by
  intro threads
  induction threads with
  | nil => intro results _; simp [runThreads, indicesOf]
  | cons p rest ih =>
    intro results hb
    obtain ⟨b, t⟩ := p
    have hbt := hb (b, t) (List.mem_cons_self _ _) results
    simp only [runThreads, hbt]
    rw [ih _ (fun q hq => hb q (List.mem_cons_of_mem _ hq))]
    congr 1
    funext k
    simp only [indicesOf, List.map_cons, List.mem_cons]
    by_cases h3 : k < n
    · by_cases h2 : k ∈ List.map (fun p => p.1 * 256 + p.2) rest
      · rw [if_pos ⟨h2, h3⟩, if_pos ⟨Or.inr h2, h3⟩]
      · rw [if_neg (fun h => h2 h.1)]
        by_cases h1 : k = b * 256 + t
        · rw [if_pos ⟨h1, h3⟩, if_pos ⟨Or.inl h1, h3⟩]
        · rw [if_neg (fun h => h1 h.1), if_neg (fun h => h.1.elim h1 h2)]
    · rw [if_neg (fun h => h3 h.2), if_neg (fun h => h3 h.2), if_neg (fun h => h3 h.2)]

theorem mem_launchThreads (g d : Nat) (p : Nat × Nat) :
    p ∈ launchThreads g d ↔ p.1 < g ∧ p.2 < d := by
  obtain ⟨b, t⟩ := p
  simp [launchThreads]

theorem blockSize_toNat : blockSize.toNat = 256 := rfl

theorem scanLaunch_eq (phonebook : List Contact) (search_name : List Nat) (name_len : Int)
    (d_results : ResultBuffer) (n : Int) (hn : n = (phonebook.length : Int))
    (hlen : phonebook.length + 255 < 2147483648) :
    scanLaunch phonebook n search_name name_len d_results =
      .ok ((List.range phonebook.length).map (verdictAt phonebook search_name name_len)) := by
  have hg : (gridSize n).toNat = (phonebook.length + 255) / 256 := by
    rw [hn]; exact gridSize_eq _ hlen
  have ht : n.toNat = phonebook.length := by rw [hn]; exact Int.toNat_ofNat _
  unfold scanLaunch
  simp only [blockSize_toNat]
  rw [hg, ht]
  rw [runThreads_eq _ (verdictAt phonebook search_name name_len) phonebook.length]
  · dsimp only
    congr 1
    apply List.map_congr_left
    intro k hk
    have hk1 : k < phonebook.length := List.mem_range.mp hk
    have hmem : k ∈ indicesOf (launchThreads ((phonebook.length + 255) / 256) 256) := by
      unfold indicesOf
      rw [List.mem_map]
      refine ⟨(k / 256, k % 256), ?_, ?_⟩
      · rw [mem_launchThreads]
        dsimp only
        omega
      · dsimp only
        omega
    rw [if_pos ⟨hmem, hk1⟩]
  · intro p hp r
    rw [mem_launchThreads] at hp
    rw [hn]
    exact searchKernel_step phonebook search_name _ r p.1 p.2 (by omega)

/-- The scan of a store whose size fits the launch arithmetic: the verdicts of
the records, in store order. -/
theorem scan_eq (phonebook : List Contact) (search_name : List Nat) (d_results : ResultBuffer)
    (hn : phonebook.length + 255 < 2147483648) :
    scan phonebook search_name d_results =
      .ok ((List.range phonebook.length).map
        (verdictAt phonebook search_name (wrapInt32 (search_name.length : Int)))) := by
  unfold scan
  exact scanLaunch_eq phonebook search_name _ d_results _
    (wrapInt32_of_lt _ (by omega) (by omega)) hn

/-! ## The report -/

theorem matchedRecords_cons (c : Contact) (r : Int) (cs : List Contact) (rs : List Int) :
    matchedRecords (c :: cs) (r :: rs) =
      if r ≠ 0 then c :: matchedRecords cs rs else matchedRecords cs rs := by
  unfold matchedRecords
  by_cases h : r = 0 <;> simp [h]

theorem matchedRecords_length (cs : List Contact) :
    ∀ (rs : List Int), rs.length = cs.length →
      (matchedRecords cs rs).length = rs.countP (fun r => r ≠ 0) := by
  induction cs with
  | nil => intro rs h; cases rs <;> simp_all [matchedRecords]
  | cons c cs ih =>
    intro rs h
    cases rs with
    | nil => simp at h
    | cons r rs =>
      rw [matchedRecords_cons]
      have := ih rs (by simpa using h)
      by_cases hr : r = 0 <;> simp [hr, this, List.countP_cons]

/-- The report loop, from index `i` with `k` iterations left: it appends the
lines of the matched records among the next `k` and adds their number to the
count. -/
theorem reportLoop_eq (phonebook : List Contact) (results : List Int)
    (hlen : results.length = phonebook.length) :
    ∀ (k i : Nat) (out : List (List Nat)) (found : Int), i + k ≤ phonebook.length →
      reportLoop phonebook results k i out found =
        .ok (out ++ (matchedRecords ((phonebook.drop i).take k) ((results.drop i).take k)).map
              foundLine,
            found + ((matchedRecords ((phonebook.drop i).take k)
              ((results.drop i).take k)).length : Int)) := by
  intro k
  induction k with
  | zero => intro i out found _; simp [reportLoop, matchedRecords]
  | succ k ih =>
    intro i out found hi
    have hip : i < phonebook.length := by omega
    have hir : i < results.length := by omega
    have e1 : phonebook.drop i = phonebook[i] :: phonebook.drop (i + 1) :=
      List.drop_eq_getElem_cons hip
    have e2 : results.drop i = results[i] :: results.drop (i + 1) :=
      List.drop_eq_getElem_cons hir
    rw [e1, e2, List.take_succ_cons, List.take_succ_cons, matchedRecords_cons]
    simp only [reportLoop, List.getElem?_eq_getElem hir, List.getElem?_eq_getElem hip]
    by_cases hr : results[i] = 0
    · simp only [hr, ne_eq, not_true_eq_false, if_false]
      exact ih (i + 1) out found (by omega)
    · simp only [hr, ne_eq, not_false_eq_true, if_true]
      rw [ih (i + 1) _ _ (by omega)]
      simp only [List.map_cons, List.length_cons, List.append_assoc, List.singleton_append,
        Nat.cast_add, Nat.cast_one]
      congr 2
      omega

/-- The report on a store and a verdict array of its length: the lines of the
matched records in store order, then the marker when there are none; the count
is the number of matched records. -/
theorem report_eq (phonebook : List Contact) (results : List Int)
    (hlen : results.length = phonebook.length) :
    report phonebook results (phonebook.length : Int) =
      .ok ((matchedRecords phonebook results).map foundLine ++
            (if (matchedRecords phonebook results).length = 0 then [noMatchLine] else []),
          ((matchedRecords phonebook results).length : Int)) := by
  unfold report
  rw [Int.toNat_ofNat, reportLoop_eq phonebook results hlen _ 0 [] 0 (by omega)]
  simp only [List.drop_zero, List.nil_append, zero_add]
  rw [List.take_of_length_le (le_refl _), List.take_of_length_le (by omega)]
  by_cases h : (matchedRecords phonebook results).length = 0
  · simp [h]
  · have h2 : ((matchedRecords phonebook results).length : Int) ≠ 0 := by omega
    simp [h, h2]

/-! ## The loader -/

theorem findFrom_append (c : Nat) (rest : List Nat) :
    ∀ (pre : List Nat) (k : Nat), c ∉ pre → findFrom (pre ++ c :: rest) c k = k + pre.length := by
  intro pre
  induction pre with
  | nil => intro k _; simp [findFrom]
  | cons x xs ih =>
    intro k h
    have hx : x ≠ c := fun e => h (by simp [e])
    have hxs : c ∉ xs := fun e => h (List.mem_cons_of_mem _ e)
    rw [List.cons_append]
    simp only [findFrom, hx, if_false, List.length_cons]
    rw [ih (k + 1) hxs]
    omega

/-- The search from the end of `xs` finds the first `c` of what follows. -/
theorem find_append (c : Nat) (xs ys rest : List Nat) (h : c ∉ ys) :
    find (xs ++ (ys ++ c :: rest)) c xs.length = xs.length + ys.length := by
  unfold find
  rw [List.drop_left]
  exact findFrom_append c rest ys xs.length h

theorem sizeAdd_one (q : Nat) (h : q + 1 < 18446744073709551616) : sizeAdd q 1 = q + 1 := by
  unfold sizeAdd; omega

theorem sizeSub_fields (q n : Nat) (h : q + 1 + n < 18446744073709551616) :
    sizeSub (sizeSub (q + 1 + n) q) 1 = n := by
  unfold sizeSub; omega

theorem substr_append (xs ys rest : List Nat) :
    substr (xs ++ (ys ++ rest)) xs.length ys.length = .ok ys := by
  unfold substr
  rw [if_neg (by simp), List.drop_left, List.take_left]

theorem find_at (line xs ys rest : List Nat) (p : Nat) (hl : line = xs ++ (ys ++ quote :: rest))
    (hp : xs.length = p) (h : quote ∉ ys) : find line quote p = p + ys.length := by
  subst hl hp
  exact find_append quote xs ys rest h

theorem substr_at (line xs ys rest : List Nat) (p : Nat) (hl : line = xs ++ (ys ++ rest))
    (hp : xs.length = p) : substr line p ys.length = .ok ys := by
  subst hl hp
  exact substr_append xs ys rest

/-- A line with four double quotes or more is parsed: the text between the
first two goes to `name`, the text between the next two to `number`. -/
theorem parseLine_fields (pre a mid b post : List Nat)
    (hlen : (pre ++ quote :: (a ++ quote :: (mid ++ quote :: (b ++ quote :: post)))).length
      < npos)
    (hpre : quote ∉ pre) (ha : quote ∉ a) (hmid : quote ∉ mid) (hb : quote ∉ b) :
    parseLine (pre ++ quote :: (a ++ quote :: (mid ++ quote :: (b ++ quote :: post)))) =
      match strcpy MAX_NAME a with
      | .error e => .error e
      | .ok cname =>
        match strcpy MAX_NUM b with
        | .error e => .error e
        | .ok cnumber => .ok (some { name := cname, number := cnumber }) := by
  generalize hline :
    pre ++ quote :: (a ++ quote :: (mid ++ quote :: (b ++ quote :: post))) = line at hlen ⊢
  have hL : line.length =
      pre.length + 1 + a.length + 1 + mid.length + 1 + b.length + 1 + post.length := by
    rw [← hline]; simp only [List.length_append, List.length_cons]; omega
  unfold npos at hlen
  have hq1 : find line quote 0 = pre.length :=
    (find_at line [] pre _ 0 hline.symm rfl hpre).trans (Nat.zero_add _)
  have hs1 : sizeAdd pre.length 1 = pre.length + 1 := sizeAdd_one _ (by omega)
  have hq2 : find line quote (pre.length + 1) = pre.length + 1 + a.length :=
    find_at line (pre ++ [quote]) a (mid ++ quote :: (b ++ quote :: post)) _
      (by rw [← hline]; simp) (by simp) ha
  have hs2 : sizeAdd (pre.length + 1 + a.length) 1 = pre.length + 1 + a.length + 1 :=
    sizeAdd_one _ (by omega)
  have hq3 : find line quote (pre.length + 1 + a.length + 1) =
      pre.length + 1 + a.length + 1 + mid.length :=
    find_at line (pre ++ quote :: (a ++ [quote])) mid (b ++ quote :: post) _
      (by rw [← hline]; simp)
      (by simp only [List.length_append, List.length_cons, List.length_nil]; omega) hmid
  have hs3 : sizeAdd (pre.length + 1 + a.length + 1 + mid.length) 1 =
      pre.length + 1 + a.length + 1 + mid.length + 1 := sizeAdd_one _ (by omega)
  have hq4 : find line quote (pre.length + 1 + a.length + 1 + mid.length + 1) =
      pre.length + 1 + a.length + 1 + mid.length + 1 + b.length :=
    find_at line (pre ++ quote :: (a ++ quote :: (mid ++ [quote]))) b post _
      (by rw [← hline]; simp)
      (by simp only [List.length_append, List.length_cons, List.length_nil]; omega) hb
  have hd1 : sizeSub (sizeSub (pre.length + 1 + a.length) pre.length) 1 = a.length :=
    sizeSub_fields _ _ (by omega)
  have hd2 : sizeSub (sizeSub (pre.length + 1 + a.length + 1 + mid.length + 1 + b.length)
      (pre.length + 1 + a.length + 1 + mid.length)) 1 = b.length :=
    sizeSub_fields _ _ (by omega)
  have hn1 : pre.length ≠ npos := by unfold npos; omega
  have hn2 : pre.length + 1 + a.length ≠ npos := by unfold npos; omega
  have hn3 : pre.length + 1 + a.length + 1 + mid.length ≠ npos := by unfold npos; omega
  have hn4 : pre.length + 1 + a.length + 1 + mid.length + 1 + b.length ≠ npos := by
    unfold npos; omega
  have hsub1 : substr line (pre.length + 1) a.length = .ok a :=
    substr_at line (pre ++ [quote]) a (quote :: (mid ++ quote :: (b ++ quote :: post))) _
      (by rw [← hline]; simp) (by simp)
  have hsub2 : substr line (pre.length + 1 + a.length + 1 + mid.length + 1) b.length = .ok b :=
    substr_at line (pre ++ quote :: (a ++ quote :: (mid ++ [quote]))) b (quote :: post) _
      (by rw [← hline]; simp)
      (by simp only [List.length_append, List.length_cons, List.length_nil]; omega)
  simp only [parseLine, hq1, hs1, hq2, hs2, hq3, hs3, hq4, hd1, hd2, hn1, hn2, hn3, hn4,
    hsub1, hsub2, or_self, if_false]

theorem cstr_of_nul_free (s : List Nat) (h : 0 ∉ s) : cstr s = s := by
  unfold cstr
  rw [List.takeWhile_eq_self_iff]
  intro x hx
  have : x ≠ 0 := fun e => h (e ▸ hx)
  simpa using this

theorem recordLine_length (name number : List Nat) :
    (recordLine name number).length = name.length + number.length + 5 := by
  simp only [recordLine, List.length_cons, List.length_append, List.length_nil]
  omega

/-- A line `"NAME","NUMBER"` whose fields are free of NUL and double quote and
fit their arrays is parsed into the record of its two fields. -/
theorem parseLine_recordLine (name number : List Nat)
    (hq1 : quote ∉ name) (hq2 : quote ∉ number) (hz1 : 0 ∉ name) (hz2 : 0 ∉ number)
    (hl1 : name.length < MAX_NAME) (hl2 : number.length < MAX_NUM) :
    parseLine (recordLine name number) = .ok (some { name := name, number := number }) := by
  have hlen : (recordLine name number).length < npos := by
    rw [recordLine_length]
    unfold MAX_NAME at hl1
    unfold MAX_NUM at hl2
    unfold npos
    omega
  have hcomma : quote ∉ [44] := by decide
  have e : recordLine name number =
      [] ++ quote :: (name ++ quote :: ([44] ++ quote :: (number ++ quote :: []))) := rfl
  rw [e] at hlen ⊢
  rw [parseLine_fields [] name [44] number [] hlen (List.not_mem_nil _) hq1 hcomma hq2]
  unfold strcpy
  rw [cstr_of_nul_free name hz1, cstr_of_nul_free number hz2, if_pos (by omega),
    if_pos (by omega)]

/-- The loading loop over lines `"NAME","NUMBER"` with fitting fields appends
the records of the lines, in order. -/
theorem loadLines_recordLines :
    ∀ (fields : List (List Nat × List Nat)) (acc : List Contact),
      (∀ f ∈ fields, quote ∉ f.1 ∧ quote ∉ f.2 ∧ 0 ∉ f.1 ∧ 0 ∉ f.2 ∧
        f.1.length < MAX_NAME ∧ f.2.length < MAX_NUM) →
      loadLines (fields.map (fun f => recordLine f.1 f.2)) acc =
        .ok (acc ++ fields.map (fun f => { name := f.1, number := f.2 })) := by
  intro fields
  induction fields with
  | nil => intro acc _; simp [loadLines]
  | cons f rest ih =>
    intro acc h
    obtain ⟨a1, a2, a3, a4, a5, a6⟩ := h f (List.mem_cons_self _ _)
    simp only [List.map_cons, loadLines, parseLine_recordLine f.1 f.2 a1 a2 a3 a4 a5 a6]
    rw [ih (acc ++ [_]) (fun x hx => h x (List.mem_cons_of_mem _ hx))]
    simp

/-! ## Verdicts -/

theorem verdictAt_eq (phonebook : List Contact) (search_name : List Nat) (name_len : Int)
    (i : Nat) (hi : i < phonebook.length) (b : Bool)
    (hb : contains (phonebook[i]).name search_name name_len = .ok b) :
    verdictAt phonebook search_name name_len i = if b then 1 else 0 := by
  unfold verdictAt
  rw [List.getElem?_eq_getElem hi]
  dsimp only
  rw [hb]
  cases b <;> rfl

theorem matchedRecords_zero (cs : List Contact) :
    ∀ (rs : List Int), (∀ r ∈ rs, r = 0) → matchedRecords cs rs = [] := by
  induction cs with
  | nil => intro rs _; simp [matchedRecords]
  | cons c cs ih =>
    intro rs h
    cases rs with
    | nil => simp [matchedRecords]
    | cons r rs =>
      rw [matchedRecords_cons, if_neg (by simpa using h r (List.mem_cons_self _ _))]
      exact ih rs (fun x hx => h x (List.mem_cons_of_mem _ hx))

theorem chars_found : chars "FOUND: " = [70, 79, 85, 78, 68, 58, 32] := by decide

theorem chars_noMatch :
    noMatchLine = [78, 111, 32, 109, 97, 116, 99, 104, 101, 115, 32, 102, 111, 117, 110, 100] := by
  decide

theorem isFoundLine_foundLine (c : Contact) : isFoundLine (foundLine c) = true := by
  unfold isFoundLine foundLine
  rw [chars_found]
  simp

theorem isFoundLine_noMatchLine : isFoundLine noMatchLine = false := by decide

theorem noMatchLine_not_found (cs : List Contact) : noMatchLine ∉ cs.map foundLine := by
  intro h
  obtain ⟨c, _, e⟩ := List.mem_map.mp h
  have h1 := isFoundLine_foundLine c
  rw [e, isFoundLine_noMatchLine] at h1
  exact Bool.noConfusion h1

/-! ## Launch sizing -/

theorem gridSize_eq_div (n : Int) (h0 : 0 ≤ n) (h1 : n + 255 < 2147483648) :
    gridSize n = (n + 255) / 256 := by
  unfold gridSize blockSize
  have e : wrapInt32 (wrapInt32 (n + 256) - 1) = n + 255 := by
    unfold wrapInt32; omega
  rw [e, Int.tdiv_eq_ediv (by omega) (by omega)]

/-! ## The program -/

theorem wrapInt32_zero : wrapInt32 0 = 0 := by decide

theorem searchAndReport_zero (phonebook : List Contact) (search_name : List Nat)
    (name_len : Int) (d_results : ResultBuffer) :
    searchAndReport phonebook 0 search_name name_len d_results =
      .ok { exitCode := 0, console := [.loaded 0], verdicts := none, report := none } := by
  unfold searchAndReport
  rw [if_pos rfl]

/-- The run of `main` with one argument on a file that opens and loads. -/
theorem main_loaded (argv : List (List Nat)) (lines : List (List Nat))
    (d_results : ResultBuffer) (phonebook : List Contact) (hargs : argv.length = 2)
    (hload : loadPhonebook lines = .ok phonebook) :
    main argv (some lines) d_results =
      searchAndReport phonebook (wrapInt32 (phonebook.length : Int)) (argv.getD 1 [])
        (wrapInt32 ((argv.getD 1 []).length : Int)) d_results := by
  unfold main
  rw [if_neg (by omega)]
  dsimp only
  rw [hload]

/-! ## Verdicts record by record -/

theorem verdictAt_eq_recordVerdict (phonebook : List Contact) (search_name : List Nat)
    (name_len : Int) (i : Nat) (hi : i < phonebook.length) :
    verdictAt phonebook search_name name_len i =
      recordVerdict search_name name_len (phonebook[i]) := by
  unfold verdictAt recordVerdict
  rw [List.getElem?_eq_getElem hi]

theorem range_map_verdictAt (phonebook : List Contact) (search_name : List Nat)
    (name_len : Int) :
    (List.range phonebook.length).map (verdictAt phonebook search_name name_len) =
      phonebook.map (recordVerdict search_name name_len) := by
  apply List.ext_getElem
  · simp
  · intro i h1 h2
    have hi : i < phonebook.length := by simpa using h2
    simp [verdictAt_eq_recordVerdict phonebook search_name name_len i hi]

/-- The scan maps every record to its verdict. -/
theorem scan_eq_map (phonebook : List Contact) (search_name : List Nat)
    (d_results : ResultBuffer) (hn : phonebook.length + 255 < 2147483648) :
    scan phonebook search_name d_results =
      .ok (phonebook.map (recordVerdict search_name (wrapInt32 (search_name.length : Int)))) := by
  rw [scan_eq phonebook search_name d_results hn, range_map_verdictAt]

theorem reorder_map {α β : Type} (f : α → β) (p : List Nat) (xs : List α) :
    reorder p (xs.map f) = (reorder p xs).map f := by
  unfold reorder
  rw [List.map_filterMap]
  congr 1
  funext i
  rw [List.getElem?_map]

theorem reorder_length_le {α : Type} (p : List Nat) (xs : List α) :
    (reorder p xs).length ≤ p.length :=
  List.length_filterMap_le _ _

theorem reorder_range {α : Type} :
    ∀ (xs : List α), reorder (List.range xs.length) xs = xs := by
  intro xs
  induction xs with
  | nil => rfl
  | cons x xs ih =>
    unfold reorder at ih ⊢
    rw [List.length_cons, List.range_succ_eq_map, List.filterMap_cons]
    simp only [List.getElem?_cons_zero, List.filterMap_map]
    congr 1
    refine Eq.trans ?_ ih
    congr 1
    funext i
    simp

/-- Reordering by a permutation of the indices permutes the list. -/
theorem reorder_perm {α : Type} (p : List Nat) (xs : List α)
    (hp : p.Perm (List.range xs.length)) : (reorder p xs).Perm xs := by
  have h := List.Perm.filterMap (fun i => xs[i]?) hp
  have e := reorder_range xs
  unfold reorder at e ⊢
  rw [e] at h
  exact h

/-! ## The launch in any order -/

theorem mem_indicesOf_perm (order threads : List (Nat × Nat)) (h : order.Perm threads)
    (k : Nat) : k ∈ indicesOf order ↔ k ∈ indicesOf threads := by
  unfold indicesOf
  exact (h.map _).mem_iff

/-- The launch run in any order of its threads: the verdicts of the records, in
store order. -/
theorem scanOrdered_eq (phonebook : List Contact) (search_name : List Nat) (name_len : Int)
    (d_results : ResultBuffer) (n : Int) (order : List (Nat × Nat))
    (hn : n = (phonebook.length : Int)) (hlen : phonebook.length + 255 < 2147483648)
    (hord : order.Perm (launchThreads ((phonebook.length + 255) / 256) 256)) :
    scanOrdered phonebook n search_name name_len order d_results =
      .ok ((List.range phonebook.length).map (verdictAt phonebook search_name name_len)) := by
  have ht : n.toNat = phonebook.length := by rw [hn]; exact Int.toNat_ofNat _
  unfold scanOrdered
  simp only [blockSize_toNat]
  rw [ht]
  rw [runThreads_eq _ (verdictAt phonebook search_name name_len) phonebook.length]
  · dsimp only
    congr 1
    apply List.map_congr_left
    intro k hk
    have hk1 : k < phonebook.length := List.mem_range.mp hk
    have hmem : k ∈ indicesOf order := by
      rw [mem_indicesOf_perm order _ hord]
      unfold indicesOf
      rw [List.mem_map]
      refine ⟨(k / 256, k % 256), ?_, ?_⟩
      · rw [mem_launchThreads]
        dsimp only
        omega
      · dsimp only
        omega
    rw [if_pos ⟨hmem, hk1⟩]
  · intro p hp r
    have hp2 := hord.mem_iff.mp hp
    rw [mem_launchThreads] at hp2
    rw [hn]
    exact searchKernel_step phonebook search_name _ r p.1 p.2 (by omega)

/-! ## The program returns -/

/-- C1, at its failing input. The empty pattern occurs in the empty text as a
substring, yet `contains("", "", 0)` returns `false`: the outer loop of the
matcher never runs on an empty text. -/
theorem contains_empty_in_empty :
    List.map lower ([] : List Nat) <:+: List.map lower ([] : List Nat) ∧
      contains [] [] ((([] : List Nat).length : Nat) : Int) = .ok false :=
  ⟨List.infix_refl _, by decide⟩

/-- C2. The scan of a store of `n` records (with `n + 255` and the query length
in `int` range) returns a verdict array of length `n` whose entry `i` is `1`
when `contains(Record[i].name, Q, |Q|)` returns `true` and `0` when it returns
`false`; `contains` returns one of the two. The contents `init` of the verdict
buffer before the launch are arbitrary. -/
theorem scan_verdicts (store : List Contact) (Q : List Nat) (init : ResultBuffer)
    (hn : store.length + 255 < 2147483648) (hq : Q.length < 2147483648) :
    ∃ verdicts, scan store Q init = .ok verdicts ∧ verdicts.length = store.length ∧
      ∀ (i : Nat) (hi : i < store.length),
        (contains (store[i]).name Q (Q.length : Int) = .ok true ∧ verdicts[i]? = some 1) ∨
        (contains (store[i]).name Q (Q.length : Int) = .ok false ∧ verdicts[i]? = some 0) := by
  refine ⟨_, scan_eq store Q init hn, by simp, ?_⟩
  intro i hi
  rw [wrapInt32_of_lt _ (by omega) (by omega)]
  obtain ⟨b, hb⟩ := contains_returns (store[i]).name Q (Q.length : Int)
  have hv := verdictAt_eq store Q (Q.length : Int) i hi b hb
  have hget : ((List.range store.length).map (verdictAt store Q (Q.length : Int)))[i]? =
      some (verdictAt store Q (Q.length : Int) i) := by
    rw [List.getElem?_map, List.getElem?_range hi]
    rfl
  rw [hget, hv, hb]
  cases b
  · exact Or.inr ⟨rfl, rfl⟩
  · exact Or.inl ⟨rfl, rfl⟩

/-- C2, on the two-record sample store with the query `ali`. -/
theorem scan_verdicts_witness :
    ∃ verdicts, scan sampleStore (chars "ali") (fun _ => 7) = .ok verdicts ∧
      verdicts.length = sampleStore.length ∧
      ∀ (i : Nat) (hi : i < sampleStore.length),
        (contains (sampleStore[i]).name (chars "ali") ((chars "ali").length : Int) = .ok true ∧
          verdicts[i]? = some 1) ∨
        (contains (sampleStore[i]).name (chars "ali") ((chars "ali").length : Int) = .ok false ∧
          verdicts[i]? = some 0) :=
  scan_verdicts sampleStore (chars "ali") (fun _ => 7) (by decide) (by decide)

/-- C3, as stated, fails. The line `"aaa...a","1"` with a name of fifty
characters is well-formed, and on it the loader does not produce a record: its
`strcpy` into the 50-byte `name` array writes 51 bytes. And on a line whose name
holds a NUL character, `strcpy` stores the name only up to the NUL. -/
theorem loader_overflow_counterexample :
    (quote ∉ longName ∧ quote ∉ [49] ∧ longName.length = 50 ∧
      loadPhonebook [recordLine longName [49]] = .error .bufferOverflow) ∧
    (quote ∉ [65, 0, 66] ∧
      loadPhonebook [recordLine [65, 0, 66] [49]] = .ok [{ name := [65], number := [49] }]) := by
  decide

/-- C3, amended. For an input of `k` lines `"NAME","NUMBER"` whose fields hold
neither a double quote nor a NUL and have at most 49 characters, the loader
returns exactly the `k` records of these lines, in input order, each with the
name and the number of its line verbatim. -/
theorem loader_roundtrip (fields : List (List Nat × List Nat))
    (h : ∀ f ∈ fields, quote ∉ f.1 ∧ quote ∉ f.2 ∧ 0 ∉ f.1 ∧ 0 ∉ f.2 ∧
      f.1.length < MAX_NAME ∧ f.2.length < MAX_NUM) :
    loadPhonebook (fields.map (fun f => recordLine f.1 f.2)) =
      .ok (fields.map (fun f => { name := f.1, number := f.2 })) := by
  unfold loadPhonebook
  rw [loadLines_recordLines fields [] h]
  rfl

/-- C3, amended, on the lines `"Alice","111"` and `"Alicia","222"`. -/
theorem loader_roundtrip_witness :
    loadPhonebook
        ([(chars "Alice", chars "111"), (chars "Alicia", chars "222")].map
          (fun f => recordLine f.1 f.2)) =
      .ok ([(chars "Alice", chars "111"), (chars "Alicia", chars "222")].map
          (fun f => { name := f.1, number := f.2 })) :=
  loader_roundtrip [(chars "Alice", chars "111"), (chars "Alicia", chars "222")] (by decide)

/-- C5. For a store and a verdict array of the same length `n`, the report
consists of the lines `FOUND: <name> -> <number>` of the records whose verdict
is non-zero, one per such record and in store order, followed by the line
`No matches found` only when there is none; its `FOUND` lines are exactly those
lines, and the match count is the number of non-zero verdicts. -/
theorem report_found_lines (store : List Contact) (verdicts : List Int)
    (hlen : verdicts.length = store.length) :
    ∃ lines, report store verdicts (store.length : Int) =
        .ok (lines, ((verdicts.countP (fun r => r ≠ 0) : Nat) : Int)) ∧
      lines =
        (matchedRecords store verdicts).map
            (fun c => chars "FOUND: " ++ cstr c.name ++ chars " -> " ++ cstr c.number) ++
          (if verdicts.countP (fun r => r ≠ 0) = 0 then [chars "No matches found"] else []) ∧
      lines.filter (fun l => l.take 7 == chars "FOUND: ") =
        (matchedRecords store verdicts).map
          (fun c => chars "FOUND: " ++ cstr c.name ++ chars " -> " ++ cstr c.number) := by
  have hcount := matchedRecords_length store verdicts hlen
  have hfl : (fun c : Contact =>
      chars "FOUND: " ++ cstr c.name ++ chars " -> " ++ cstr c.number) = foundLine := rfl
  have hfi : (fun l : List Nat => l.take 7 == chars "FOUND: ") = isFoundLine := rfl
  have hnm : chars "No matches found" = noMatchLine := rfl
  rw [hfl, hfi, hnm]
  refine ⟨_, ?_, rfl, ?_⟩
  · rw [report_eq store verdicts hlen, hcount]
  · rw [List.filter_append]
    have h1 : ((matchedRecords store verdicts).map foundLine).filter isFoundLine =
        (matchedRecords store verdicts).map foundLine := by
      rw [List.filter_eq_self]
      intro l hl
      obtain ⟨c, _, e⟩ := List.mem_map.mp hl
      rw [← e]
      exact isFoundLine_foundLine c
    rw [h1]
    split_ifs
    · simp [List.filter_cons, isFoundLine_noMatchLine]
    · simp

/-- C5, on the sample store with the verdicts `1, 0`: the report is the one line
`FOUND: Alice Smith -> 12345` and the count is one. -/
theorem report_found_lines_witness :
    (∃ lines, report sampleStore [1, 0] (sampleStore.length : Int) =
        .ok (lines, ((([1, 0] : List Int).countP (fun r => r ≠ 0) : Nat) : Int)) ∧
      lines =
        (matchedRecords sampleStore [1, 0]).map
            (fun c => chars "FOUND: " ++ cstr c.name ++ chars " -> " ++ cstr c.number) ++
          (if ([1, 0] : List Int).countP (fun r => r ≠ 0) = 0
            then [chars "No matches found"] else []) ∧
      lines.filter (fun l => l.take 7 == chars "FOUND: ") =
        (matchedRecords sampleStore [1, 0]).map
          (fun c => chars "FOUND: " ++ cstr c.name ++ chars " -> " ++ cstr c.number)) ∧
    report sampleStore [1, 0] 2 =
      .ok ([[70, 79, 85, 78, 68, 58, 32, 65, 108, 105, 99, 101, 32, 83, 109, 105, 116, 104,
             32, 45, 62, 32, 49, 50, 51, 52, 53]], 1) ∧
    chars "FOUND: Alice Smith -> 12345" =
      [70, 79, 85, 78, 68, 58, 32, 65, 108, 105, 99, 101, 32, 83, 109, 105, 116, 104,
        32, 45, 62, 32, 49, 50, 51, 52, 53] :=
  ⟨report_found_lines sampleStore [1, 0] (by decide), by decide, by decide⟩

/-- C6. For a store and a verdict array of the same length, the report holds
the line `No matches found` exactly when the match count is zero; it is then
the only line of the report, and the report is never empty. -/
theorem report_marker (store : List Contact) (verdicts : List Int)
    (hlen : verdicts.length = store.length) :
    ∃ lines found, report store verdicts (store.length : Int) = .ok (lines, found) ∧
      (noMatchLine ∈ lines ↔ found = 0) ∧ (found = 0 → lines = [noMatchLine]) ∧
      lines ≠ [] := by
  refine ⟨_, _, report_eq store verdicts hlen, ?_, ?_, ?_⟩
  · by_cases h : (matchedRecords store verdicts).length = 0
    · have hnil : matchedRecords store verdicts = [] := List.length_eq_zero.mp h
      simp [hnil]
    · have h2 : ((matchedRecords store verdicts).length : Int) ≠ 0 := by omega
      simp only [h, if_false, List.append_nil, h2, iff_false]
      exact noMatchLine_not_found _
  · intro h0
    have h : (matchedRecords store verdicts).length = 0 := by omega
    have hnil : matchedRecords store verdicts = [] := List.length_eq_zero.mp h
    simp [hnil]
  · by_cases h : (matchedRecords store verdicts).length = 0
    · simp [h]
    · intro hnil
      have := congrArg List.length hnil
      simp [h] at this

/-- C6, on the sample store with the verdicts `0, 0`. -/
theorem report_marker_witness :
    ∃ lines found, report sampleStore [0, 0] (sampleStore.length : Int) = .ok (lines, found) ∧
      (noMatchLine ∈ lines ↔ found = 0) ∧ (found = 0 → lines = [noMatchLine]) ∧
      lines ≠ [] :=
  report_marker sampleStore [0, 0] (by decide)

/-- C7. Replacing letters of the text or of the pattern by the same letter in
the other case does not change what `contains` returns, and `contains` returns
a verdict on both. (The matcher takes its two buffers by value of their
contents and returns only the verdict: it cannot modify them.) -/
theorem contains_case_insensitive (T T2 P P2 : List Nat)
    (hT : CaseVariant T T2) (hP : CaseVariant P P2) :
    ∃ b, contains T P (P.length : Int) = .ok b ∧ contains T2 P2 (P2.length : Int) = .ok b := by
  obtain ⟨b, hb⟩ := contains_returns T P (P.length : Int)
  refine ⟨b, hb, ?_⟩
  rw [caseVariant_length hP, contains_congr T T2 P P2 _ hT hP]
  exact hb

/-- C7, on the text `Alice` against `aLICE` and the pattern `Alic` against `ALIC`. -/
theorem contains_case_insensitive_witness :
    ∃ b, contains (chars "Alice") (chars "Alic") ((chars "Alic").length : Int) = .ok b ∧
      contains (chars "aLICE") (chars "ALIC") ((chars "ALIC").length : Int) = .ok b :=
  contains_case_insensitive (chars "Alice") (chars "aLICE") (chars "Alic") (chars "ALIC")
    (by unfold CaseVariant; decide) (by unfold CaseVariant; decide)

/-- C8, at its failing input. The empty pattern matches a non-empty text but
not the empty text, so an empty query gives the verdict `0` to a record whose
name is empty and `1` to the others. -/
theorem empty_query_on_empty_name :
    contains [] [] 0 = .ok false ∧ contains (chars "Bob") [] 0 = .ok true ∧
      scan [namelessContact, { name := chars "Bob", number := chars "222" }] [] (fun _ => 7) =
        .ok [0, 1] := by
  decide

/-- C9, at its failing input. The line `"","555"` loads as a record with an
empty name; querying that exact name does not find the record: its verdict is
`0` and the report is the marker. -/
theorem exact_empty_name_not_found :
    loadPhonebook [recordLine [] (chars "555")] = .ok [namelessContact] ∧
      contains namelessContact.name namelessContact.name (namelessContact.name.length : Int) =
        .ok false ∧
      scan [namelessContact] namelessContact.name (fun _ => 7) = .ok [0] ∧
      report [namelessContact] [0] 1 = .ok ([noMatchLine], 0) := by
  decide

/-- C10. For a store (with `n + 255` and the query length in `int` range) and
a query longer than every stored name, every verdict of the scan is `0`, the
match count is `0` and the report is the single line `No matches found`. -/
theorem long_query_no_match (store : List Contact) (Q : List Nat) (init : ResultBuffer)
    (hlong : ∀ c ∈ store, c.name.length < Q.length)
    (hn : store.length + 255 < 2147483648) (hq : Q.length < 2147483648) :
    ∃ verdicts, scan store Q init = .ok verdicts ∧ verdicts.length = store.length ∧
      (∀ v ∈ verdicts, v = 0) ∧
      report store verdicts (wrapInt32 (store.length : Int)) = .ok ([noMatchLine], 0) := by
  have hzero : ∀ v ∈ (List.range store.length).map
      (verdictAt store Q (wrapInt32 (Q.length : Int))), v = 0 := by
    intro v hv
    obtain ⟨i, hi, e⟩ := List.mem_map.mp hv
    have hi2 : i < store.length := List.mem_range.mp hi
    rw [wrapInt32_of_lt _ (by omega) (by omega)] at e
    have hshort := contains_short_text (store[i]).name Q (Q.length : Int)
      (by have := hlong store[i] (List.getElem_mem hi2); omega)
    rw [verdictAt_eq store Q _ i hi2 false hshort] at e
    exact e.symm
  refine ⟨_, scan_eq store Q init hn, by simp, hzero, ?_⟩
  rw [wrapInt32_of_lt (store.length : Int) (by omega) (by omega), report_eq store _ (by simp),
    matchedRecords_zero store _ hzero]
  rfl

/-- C10, on the sample store with a query of twelve characters. -/
theorem long_query_no_match_witness :
    ∃ verdicts, scan sampleStore (chars "Alice Smith!") (fun _ => 7) = .ok verdicts ∧
      verdicts.length = sampleStore.length ∧ (∀ v ∈ verdicts, v = 0) ∧
      report sampleStore verdicts (wrapInt32 (sampleStore.length : Int)) =
        .ok ([noMatchLine], 0) :=
  long_query_no_match sampleStore (chars "Alice Smith!") (fun _ => 7) (by decide) (by decide)
    (by decide)

/-- C11. The scan is order-equivariant. For a store (with `n + 255` in `int`
range) and a permutation `p` of its indices, the store reordered by `p` is a
permutation of the store, and its scan returns the verdict array of the store
reordered by the same `p`; every verdict is a function of its record and of the
query alone. The buffer contents before the two launches are arbitrary. -/
theorem scan_equivariant (store : List Contact) (Q : List Nat) (init init2 : ResultBuffer)
    (p : List Nat) (hp : p.Perm (List.range store.length))
    (hn : store.length + 255 < 2147483648) :
    (reorder p store).Perm store ∧
      ∃ verdicts, scan store Q init = .ok verdicts ∧
        verdicts = store.map (recordVerdict Q (wrapInt32 (Q.length : Int))) ∧
        scan (reorder p store) Q init2 = .ok (reorder p verdicts) := by
  have hperm := reorder_perm p store hp
  refine ⟨hperm, _, scan_eq_map store Q init hn, rfl, ?_⟩
  rw [scan_eq_map (reorder p store) Q init2 (by rw [hperm.length_eq]; exact hn), reorder_map]

/-- C11, on the sample store with its two records swapped. -/
theorem scan_equivariant_witness :
    (reorder [1, 0] sampleStore).Perm sampleStore ∧
      ∃ verdicts, scan sampleStore (chars "ali") (fun _ => 7) = .ok verdicts ∧
        verdicts = sampleStore.map
          (recordVerdict (chars "ali") (wrapInt32 ((chars "ali").length : Int))) ∧
        scan (reorder [1, 0] sampleStore) (chars "ali") (fun _ => 3) =
          .ok (reorder [1, 0] verdicts) :=
  scan_equivariant sampleStore (chars "ali") (fun _ => 7) (fun _ => 3) [1, 0] (by decide)
    (by decide)

/-- C12, as stated, fails: on an empty file and on a file with only the
malformed line `Alice,111`, the program returns `0` right after printing the
count; it writes no report, hence no `No matches found` marker. -/
theorem zero_records_counterexample :
    main [chars "./search_phonebook", chars "ali"] (some []) (fun _ => 0) =
        .ok { exitCode := 0, console := [.loaded 0], verdicts := none, report := none } ∧
      main [chars "./search_phonebook", chars "ali"] (some [chars "Alice,111"]) (fun _ => 0) =
        .ok { exitCode := 0, console := [.loaded 0], verdicts := none, report := none } := by
  decide

/-- C12, amended. Every run with one argument that loads zero records (empty
input or only skipped lines) prints the count `0` and exits with code `0`
without launching the scan and without writing a report: `result.txt` is not
written, so no marker is produced. -/
theorem zero_records_no_report (argv : List (List Nat)) (lines : List (List Nat))
    (d_results : ResultBuffer) (hargs : argv.length = 2)
    (hzero : loadPhonebook lines = .ok []) :
    main argv (some lines) d_results =
      .ok { exitCode := 0, console := [.loaded 0], verdicts := none, report := none } := by
  rw [main_loaded argv lines d_results [] hargs hzero]
  rw [show wrapInt32 ((([] : List Contact).length : Nat) : Int) = 0 from wrapInt32_zero]
  exact searchAndReport_zero _ _ _ _

/-- C12, amended, on a file holding only the malformed line `Alice,111`. -/
theorem zero_records_no_report_witness :
    main [chars "./search_phonebook", chars "ali"] (some [chars "Alice,111"]) (fun _ => 7) =
      .ok { exitCode := 0, console := [.loaded 0], verdicts := none, report := none } :=
  zero_records_no_report [chars "./search_phonebook", chars "ali"] [chars "Alice,111"]
    (fun _ => 7) (by decide) (by decide)

/-- C13, at its failing input. The line `"aaa...a","1"` with a name of fifty
characters is neither skipped nor stored with a clamped name: `strcpy` writes its
51 bytes into the 50-byte array `name`, past its end. -/
theorem capacity_not_enforced :
    longName.length = MAX_NAME ∧
      strcpy MAX_NAME longName = .error .bufferOverflow ∧
      parseLine (recordLine longName [49]) = .error .bufferOverflow ∧
      parseLine (recordLine longName [49]) ≠ .ok none ∧
      parseLine (recordLine longName [49]) ≠
        .ok (some { name := longName.take 49, number := [49] }) := by
  decide

/-- C16. Frame of one unit of work, for every thread, record count `n`, store
and verdict buffer, with `idx` the index the thread computes: a run of the
kernel body changes no slot of the verdict buffer other than `idx`; it returns the
same on any other store `phonebook2` that holds the same record at `idx`, so it
reads no other record; when `idx >= n` it leaves the buffer unchanged whatever
the store holds; and it returns whenever `0 <= idx` and `n` is at most the number
of records. -/
theorem searchKernel_frame (phonebook phonebook2 : List Contact) (n : Int)
    (search_name : List Nat) (name_len : Int) (results : ResultBuffer)
    (blockIdx blockDim threadIdx : Nat) :
    (∀ results2,
        searchKernel phonebook n search_name name_len results blockIdx blockDim threadIdx =
          .ok results2 →
        ∀ k : Nat, (k : Int) ≠ threadIndex blockIdx blockDim threadIdx →
          results2 k = results k) ∧
    (phonebook2[(threadIndex blockIdx blockDim threadIdx).toNat]? =
        phonebook[(threadIndex blockIdx blockDim threadIdx).toNat]? →
      searchKernel phonebook2 n search_name name_len results blockIdx blockDim threadIdx =
        searchKernel phonebook n search_name name_len results blockIdx blockDim threadIdx) ∧
    (n ≤ threadIndex blockIdx blockDim threadIdx →
      searchKernel phonebook n search_name name_len results blockIdx blockDim threadIdx =
          .ok results ∧
        searchKernel phonebook2 n search_name name_len results blockIdx blockDim threadIdx =
          .ok results) ∧
    (0 ≤ threadIndex blockIdx blockDim threadIdx → n ≤ (phonebook.length : Int) →
      ∃ results2,
        searchKernel phonebook n search_name name_len results blockIdx blockDim threadIdx =
          .ok results2) := by
  unfold searchKernel
  dsimp only
  generalize threadIndex blockIdx blockDim threadIdx = idx
  refine ⟨?_, ?_, ?_, ?_⟩
  · intro results2 h k hk
    by_cases h1 : idx < n
    · by_cases h2 : 0 ≤ idx
      · rw [if_pos h1, if_pos h2] at h
        cases hc : phonebook[idx.toNat]? with
        | none => rw [hc] at h; exact Except.noConfusion h
        | some c =>
          rw [hc] at h
          dsimp only at h
          obtain ⟨bb, hb⟩ := contains_returns c.name search_name name_len
          rw [hb] at h
          dsimp only at h
          have hk2 : k ≠ idx.toNat := by omega
          cases bb
          · rw [if_neg (by decide)] at h
            injection h with h
            rw [← h]
            simp [writeResult, hk2]
          · rw [if_pos rfl] at h
            injection h with h
            rw [← h]
            simp [writeResult, hk2]
      · rw [if_pos h1, if_neg h2] at h
        exact Except.noConfusion h
    · rw [if_neg h1] at h
      injection h with h
      rw [← h]
  · intro he
    rw [he]
  · intro hge
    rw [if_neg (by omega), if_neg (by omega)]
    exact ⟨rfl, rfl⟩
  · intro h0 hn
    by_cases h1 : idx < n
    · rw [if_pos h1, if_pos h0]
      have hlt : idx.toNat < phonebook.length := by omega
      rw [List.getElem?_eq_getElem hlt]
      dsimp only
      obtain ⟨bb, hb⟩ := contains_returns (phonebook[idx.toNat]).name search_name name_len
      rw [hb]
      dsimp only
      cases bb
      · exact ⟨_, if_neg (by decide)⟩
      · exact ⟨_, if_pos rfl⟩
    · rw [if_neg h1]
      exact ⟨_, rfl⟩

/-- C17. Order-independence of the scan. For a store (with `n + 255` in `int`
range), a query, any two orders in which the threads of the launch are run one
after the other, and any two contents of the verdict buffer before the launch,
the two runs return the same verdict array, which is also what `scan` returns,
and the report written from it is the same. -/
theorem scan_order_independent (store : List Contact) (Q : List Nat)
    (init1 init2 : ResultBuffer) (order1 order2 : List (Nat × Nat))
    (h1 : order1.Perm
      (launchThreads (gridSize (wrapInt32 (store.length : Int))).toNat blockSize.toNat))
    (h2 : order2.Perm
      (launchThreads (gridSize (wrapInt32 (store.length : Int))).toNat blockSize.toNat))
    (hn : store.length + 255 < 2147483648) :
    ∃ verdicts rep,
      scanOrdered store (wrapInt32 (store.length : Int)) Q (wrapInt32 (Q.length : Int))
        order1 init1 = .ok verdicts ∧
      scanOrdered store (wrapInt32 (store.length : Int)) Q (wrapInt32 (Q.length : Int))
        order2 init2 = .ok verdicts ∧
      scan store Q init1 = .ok verdicts ∧ scan store Q init2 = .ok verdicts ∧
      report store verdicts (wrapInt32 (store.length : Int)) = .ok rep := by
  have hw : wrapInt32 (store.length : Int) = (store.length : Int) :=
    wrapInt32_of_lt _ (by omega) (by omega)
  rw [hw] at h1 h2 ⊢
  rw [gridSize_eq _ hn, blockSize_toNat] at h1 h2
  refine ⟨_, _, scanOrdered_eq store Q _ init1 _ order1 rfl hn h1,
    scanOrdered_eq store Q _ init2 _ order2 rfl hn h2, scan_eq store Q init1 hn,
    scan_eq store Q init2 hn, report_eq store _ (by simp)⟩

/-- C17, on the sample store: the threads in launch order from one buffer, and
in the reverse order from another. -/
theorem scan_order_independent_witness :
    ∃ verdicts rep,
      scanOrdered sampleStore (wrapInt32 (sampleStore.length : Int)) (chars "ali")
        (wrapInt32 ((chars "ali").length : Int))
        (launchThreads (gridSize (wrapInt32 (sampleStore.length : Int))).toNat
          blockSize.toNat)
        (fun _ => 7) = .ok verdicts ∧
      scanOrdered sampleStore (wrapInt32 (sampleStore.length : Int)) (chars "ali")
        (wrapInt32 ((chars "ali").length : Int))
        (launchThreads (gridSize (wrapInt32 (sampleStore.length : Int))).toNat
          blockSize.toNat).reverse
        (fun _ => 3) = .ok verdicts ∧
      scan sampleStore (chars "ali") (fun _ => 7) = .ok verdicts ∧
      scan sampleStore (chars "ali") (fun _ => 3) = .ok verdicts ∧
      report sampleStore verdicts (wrapInt32 (sampleStore.length : Int)) = .ok rep :=
  scan_order_independent sampleStore (chars "ali") (fun _ => 7) (fun _ => 3) _ _
    (List.Perm.refl _) (List.reverse_perm _) (by decide)

/-- C18, as stated, fails: the record count `2147483647` is a non-negative
32-bit `int`, and for it `(n + 256 - 1) / 256` computed in `int` is
`-8388607`, so that `batches * 256` is below `n`. The same happens from
`n = 2147483393` on, the first count for which `n + 255` leaves the `int` range. -/
theorem gridSize_overflow_counterexample :
    ((0 : Int) ≤ 2147483647 ∧ (2147483647 : Int) < 2147483648 ∧
      gridSize 2147483647 = -8388607 ∧ gridSize 2147483647 * 256 < 2147483647) ∧
    (gridSize 2147483393 = -8388608 ∧ gridSize 2147483393 * 256 < 2147483393) := by
  decide

/-- C18, amended. For every record count `n` with `0 ≤ n` and
`n + 255 < 2^31`, the number of batches `(n + blockSize - 1) / blockSize` is
`ceil(n / 256)`, so that `batches * 256 ≥ n` and, for `n ≥ 1`,
`(batches - 1) * 256 < n`. -/
theorem gridSize_ceil (n : Int) (h0 : 0 ≤ n) (h1 : n + 255 < 2147483648) :
    gridSize n = ⌈(n : ℚ) / 256⌉ ∧ n ≤ gridSize n * 256 ∧
      (1 ≤ n → (gridSize n - 1) * 256 < n) := by
  have e := gridSize_eq_div n h0 h1
  have hle : n ≤ gridSize n * 256 := by rw [e]; omega
  have hlt : (gridSize n - 1) * 256 < n := by rw [e]; omega
  refine ⟨?_, hle, fun _ => hlt⟩
  symm
  rw [Int.ceil_eq_iff]
  constructor
  · rw [lt_div_iff₀ (by norm_num : (0 : ℚ) < 256)]
    exact_mod_cast hlt
  · rw [div_le_iff₀ (by norm_num : (0 : ℚ) < 256)]
    exact_mod_cast hle

/-- C18, amended, at `n = 257`: two batches. -/
theorem gridSize_ceil_witness :
    gridSize 257 = ⌈((257 : Int) : ℚ) / 256⌉ ∧ (257 : Int) ≤ gridSize 257 * 256 ∧
      ((1 : Int) ≤ 257 → (gridSize 257 - 1) * 256 < 257) :=
  gridSize_ceil 257 (by decide) (by decide)

end PhoneBookSearch
